import Mathlib

/-!
Verification of the request-construction / error-classification layer and the
response-normalization layer of the `dbrest` CLI (Go packages `api` and
`format`), as a shallow embedding in Lean.

Modelling conventions:
* Go strings on the HTTP/URL side are byte sequences; they are embedded as
  `List Nat` (each element a byte value < 256).  On the `format` side the
  payloads and rendered tables in all claims are ASCII, and strings are
  embedded as Lean `String`/`List Char`.
* Go `int` is embedded as `Int`; Go `/` and `%` truncate toward zero, which is
  `Int.tdiv` / `Int.tmod`.
* Fallible Go functions returning `(T, error)` are embedded as `Except`.
-/

namespace DBRest

/-! ## Go `strings`/`unicode` helpers (package `format`) -/

/-- The white-space class of Go's `unicode.IsSpace` (the code points with
White_Space property in Latin-1 and the Unicode `White_Space` ranges). -/
def goIsSpace (c : Char) : Bool :=
  c.toNat = 9 ∨ c.toNat = 10 ∨ c.toNat = 11 ∨ c.toNat = 12 ∨ c.toNat = 13 ∨
  c.toNat = 32 ∨ c.toNat = 0x85 ∨ c.toNat = 0xA0 ∨ c.toNat = 0x1680 ∨
  (0x2000 ≤ c.toNat ∧ c.toNat ≤ 0x200A) ∨ c.toNat = 0x2028 ∨
  c.toNat = 0x2029 ∨ c.toNat = 0x202F ∨ c.toNat = 0x205F ∨ c.toNat = 0x3000

/-- Go `strings.TrimSpace` on a character sequence: drop white space from both
ends. -/
def goTrimSpace (s : String) : String :=
  ⟨((s.data.dropWhile goIsSpace).reverse.dropWhile goIsSpace).reverse⟩

/-- Go `fmt.Sprintf("%+d", n)`: decimal with an explicit sign. -/
def fmtPlusInt (n : Int) : String :=
  if 0 ≤ n then "+" ++ toString n else toString n

/-- Go `format.formatDelay` (part_003:259-270): render an optional delay in
seconds. -/
def formatDelay (delay : Option Int) : String :=
  match delay with
  | none => "-"
  | some d =>
    if d = 0 then "0m"
    else if Int.tmod d 60 = 0 then fmtPlusInt (Int.tdiv d 60) ++ "m"
    else fmtPlusInt d ++ "s"

/-- Go `format.formatInt` (part_003:252-257): render an optional integer. -/
def formatInt (value : Option Int) : String :=
  match value with
  | none => "-"
  | some n => toString n

/-- Go `format.formatFloat` (part_003:245-250).  The source formats a `*float64`
with `%.6f`; the embedding keeps JSON numbers as their decimal literals and
renders a literal by padding/truncating its fractional part to six digits.
IEEE-754 double rounding is not modelled; no claim exercises a float value. -/
def formatFloatLit (lit : String) : String :=
  match lit.splitOn "." with
  | [ip] => ip ++ "." ++ "000000"
  | [ip, fp] => ip ++ "." ++ ((fp ++ "000000").take 6)
  | _ => lit

/-- Go `format.formatFloat` on the optional raw number literal. -/
def formatFloat (value : Option String) : String :=
  match value with
  | none => "-"
  | some lit => formatFloatLit lit

/-! ## Record shapes of package `format` (part_003:9-84)

Pointer-typed (nullable) Go fields are `Option`; `*float64` fields keep the
raw decimal literal of the JSON number (see `formatFloat`). -/

structure Location where
  id : String
  name : String
  type : String
  latitude : Option String
  longitude : Option String
  distance : Option Int
deriving Repr, DecidableEq, Inhabited

structure Line where
  name : String
deriving Repr, DecidableEq, Inhabited

structure Stopover where
  when : String
  plannedWhen : String
  delay : Option Int
  platform : String
  plannedPlatform : String
  cancelled : Bool
  direction : String
  line : Line
  stop : Location
deriving Repr, DecidableEq, Inhabited

structure Leg where
  origin : Option Location
  destination : Option Location
  departure : String
  plannedDep : String
  arrival : String
  plannedArr : String
deriving Repr, DecidableEq, Inhabited

structure Journey where
  legs : List Leg
  transfers : Int
deriving Repr, DecidableEq, Inhabited

structure JourneysResponse where
  journeys : List Journey
deriving Repr, DecidableEq, Inhabited

structure TripStop where
  stop : Location
  arrival : String
  plannedArrival : String
  departure : String
  plannedDeparture : String
  platform : String
  plannedPlatform : String
deriving Repr, DecidableEq, Inhabited

structure Trip where
  line : Line
  stopovers : List TripStop
deriving Repr, DecidableEq, Inhabited

structure TripResponse where
  trip : Trip
deriving Repr, DecidableEq, Inhabited

structure Position where
  latitude : Option String
  longitude : Option String
deriving Repr, DecidableEq, Inhabited

structure Movement where
  line : Line
  direction : String
  location : Position
deriving Repr, DecidableEq, Inhabited

structure RadarResponse where
  movements : List Movement
deriving Repr, DecidableEq, Inhabited

/-! ## JSON values and syntax (Go `encoding/json`)

JSON numbers are kept as their source literal; payloads are character
sequences (the claims' payloads are ASCII). -/

inductive Json where
  | null
  | bool (b : Bool)
  | num (lit : String)
  | str (s : String)
  | arr (elems : List Json)
  | obj (fields : List (String × Json))
deriving Repr, Inhabited

def jsonWs (c : Char) : Bool :=
  c = ' ' ∨ c = '\t' ∨ c = '\n' ∨ c = '\r'

def skipWs (s : List Char) : List Char := s.dropWhile jsonWs

def isDigit (c : Char) : Bool := '0' ≤ c ∧ c ≤ '9'

def hexDigitVal (c : Char) : Option Nat :=
  if '0' ≤ c ∧ c ≤ '9' then some (c.toNat - 48)
  else if 'a' ≤ c ∧ c ≤ 'f' then some (c.toNat - 87)
  else if 'A' ≤ c ∧ c ≤ 'F' then some (c.toNat - 55)
  else none

/-- Decode one `\uXXXX` escape.  Surrogate-pair recombination is not
modelled (no claim exercises it). -/
def parseHex4 (s : List Char) : Option (Char × List Char) :=
  match s with
  | a :: b :: c :: d :: rest =>
    match hexDigitVal a, hexDigitVal b, hexDigitVal c, hexDigitVal d with
    | some ha, some hb, some hc, some hd =>
      some (Char.ofNat (((ha * 16 + hb) * 16 + hc) * 16 + hd), rest)
    | _, _, _, _ => none
  | _ => none

/-- Body of a JSON string literal, after the opening quote: the decoded
characters and the input after the closing quote.  Fuel bounds recursion; the
entry points supply at least the input length. -/
def parseStringBody : Nat → List Char → Except String (List Char × List Char)
  | 0, _ => .error "string literal: fuel exhausted"
  | _, [] => .error "unexpected end of JSON input"
  | fuel + 1, c :: rest =>
    if c = '"' then .ok ([], rest)
    else if c = '\\' then
      match rest with
      | [] => .error "unexpected end of JSON input"
      | e :: rest2 =>
        if e = 'u' then
          match parseHex4 rest2 with
          | none => .error "invalid \\u escape in string literal"
          | some (ch, rest3) =>
            match parseStringBody fuel rest3 with
            | .error msg => .error msg
            | .ok (cs, r) => .ok (ch :: cs, r)
        else
          match
            (if e = '"' then some '"'
             else if e = '\\' then some '\\'
             else if e = '/' then some '/'
             else if e = 'b' then some (Char.ofNat 8)
             else if e = 'f' then some (Char.ofNat 12)
             else if e = 'n' then some '\n'
             else if e = 'r' then some '\r'
             else if e = 't' then some '\t'
             else none) with
          | none => .error "invalid escape in string literal"
          | some ch =>
            match parseStringBody fuel rest2 with
            | .error msg => .error msg
            | .ok (cs, r) => .ok (ch :: cs, r)
    else if c.toNat < 32 then .error "invalid control character in string literal"
    else
      match parseStringBody fuel rest with
      | .error msg => .error msg
      | .ok (cs, r) => .ok (c :: cs, r)

/-- A JSON number literal (RFC 8259 grammar, as enforced by Go's scanner),
returned verbatim together with the remaining input. -/
def parseNumberLit (s : List Char) : Except String (String × List Char) :=
  let (neg, s1) :=
    match s with
    | '-' :: rest => (true, rest)
    | _ => (false, s)
  let ds := s1.takeWhile isDigit
  let r1 := s1.dropWhile isDigit
  if ds = [] then .error "invalid number literal"
  else if 1 < ds.length ∧ ds.head? = some '0' then .error "invalid leading zero in number literal"
  else
    let (fracPart, r2) :=
      match r1 with
      | '.' :: rest =>
        let fs := rest.takeWhile isDigit
        (('.' :: fs), rest.dropWhile isDigit)
      | _ => ([], r1)
    if fracPart = ['.'] then .error "missing digits after decimal point"
    else
      let (expPart, r3) :=
        match r2 with
        | e :: rest =>
          if e = 'e' ∨ e = 'E' then
            let (sgn, rest2) :=
              match rest with
              | '+' :: t => (['+'], t)
              | '-' :: t => (['-'], t)
              | _ => ([], rest)
            let es := rest2.takeWhile isDigit
            (e :: sgn ++ es, rest2.dropWhile isDigit)
          else ([], r2)
        | [] => ([], r2)
      if expPart ≠ [] ∧ (expPart.getLast? = some 'e' ∨ expPart.getLast? = some 'E' ∨
          expPart.getLast? = some '+' ∨ expPart.getLast? = some '-') then
        .error "missing digits in exponent"
      else
        .ok (⟨(if neg then ['-'] else []) ++ ds ++ fracPart ++ expPart⟩, r3)

/-- Consume an expected literal suffix (the tail of `null`/`true`/`false`). -/
def expectChars : List Char → List Char → Option (List Char)
  | [], s => some s
  | c :: cs, d :: ds => if c = d then expectChars cs ds else none
  | _ :: _, [] => none

mutual

/-- Parse one JSON value (Go `encoding/json` scanner), returning the value and
the unconsumed input. -/
def parseValue : Nat → List Char → Except String (Json × List Char)
  | 0, _ => .error "json: fuel exhausted"
  | fuel + 1, s =>
    match skipWs s with
    | [] => .error "unexpected end of JSON input"
    | c :: rest =>
      if c = 'n' then
        match expectChars ['u', 'l', 'l'] rest with
        | some r => .ok (Json.null, r)
        | none => .error "invalid literal"
      else if c = 't' then
        match expectChars ['r', 'u', 'e'] rest with
        | some r => .ok (Json.bool true, r)
        | none => .error "invalid literal"
      else if c = 'f' then
        match expectChars ['a', 'l', 's', 'e'] rest with
        | some r => .ok (Json.bool false, r)
        | none => .error "invalid literal"
      else if c = '"' then
        match parseStringBody (rest.length + 1) rest with
        | .error msg => .error msg
        | .ok (cs, r) => .ok (Json.str ⟨cs⟩, r)
      else if c = '[' then
        match skipWs rest with
        | ']' :: r2 => .ok (Json.arr [], r2)
        | _ => parseElems fuel rest []
      else if c = '{' then
        match skipWs rest with
        | '}' :: r2 => .ok (Json.obj [], r2)
        | _ => parseMembers fuel rest []
      else if c = '-' ∨ isDigit c then
        match parseNumberLit (c :: rest) with
        | .error msg => .error msg
        | .ok (lit, r) => .ok (Json.num lit, r)
      else .error "invalid character looking for beginning of value"

/-- Parse the elements of a non-empty JSON array, after the opening bracket. -/
def parseElems : Nat → List Char → List Json → Except String (Json × List Char)
  | 0, _, _ => .error "json: fuel exhausted"
  | fuel + 1, s, acc =>
    match parseValue fuel s with
    | .error msg => .error msg
    | .ok (v, rest) =>
      match skipWs rest with
      | ',' :: r2 => parseElems fuel r2 (acc ++ [v])
      | ']' :: r2 => .ok (Json.arr (acc ++ [v]), r2)
      | _ => .error "invalid character after array element"

/-- Parse the members of a non-empty JSON object, after the opening brace. -/
def parseMembers : Nat → List Char → List (String × Json) →
    Except String (Json × List Char)
  | 0, _, _ => .error "json: fuel exhausted"
  | fuel + 1, s, acc =>
    match skipWs s with
    | '"' :: rest =>
      match parseStringBody (rest.length + 1) rest with
      | .error msg => .error msg
      | .ok (key, r1) =>
        match skipWs r1 with
        | ':' :: r2 =>
          match parseValue fuel r2 with
          | .error msg => .error msg
          | .ok (v, r3) =>
            match skipWs r3 with
            | ',' :: r4 => parseMembers fuel r4 (acc ++ [(⟨key⟩, v)])
            | '}' :: r4 => .ok (Json.obj (acc ++ [(⟨key⟩, v)]), r4)
            | _ => .error "invalid character after object member"
        | _ => .error "expected colon after object key"
    | _ => .error "expected object key"

end

/-- Full JSON syntax check: one value, nothing but white space after it
(Go's `json.Unmarshal` rejects trailing data). -/
def parseJson (data : String) : Except String Json :=
  match parseValue (data.data.length + 1) data.data with
  | .error msg => .error msg
  | .ok (v, rest) =>
    if skipWs rest = [] then .ok v
    else .error "invalid character after top-level value"

/-- Go `format.pickString` (part_003:272-280). -/
def pickString (primary fallback : String) : String :=
  if goTrimSpace primary ≠ "" then primary
  else if goTrimSpace fallback ≠ "" then fallback
  else "-"

/-- Go `format.pickTime` (part_003:282-290). -/
def pickTime (primary fallback : String) : String :=
  if goTrimSpace primary ≠ "" then primary
  else if goTrimSpace fallback ≠ "" then fallback
  else "-"

/-- Go `format.locationName` (part_003:292-300). -/
def locationName (loc : Option Location) : String :=
  match loc with
  | none => "-"
  | some l => if goTrimSpace l.name ≠ "" then l.name else l.id

/-! ## Decoding Json values into the record shapes

This embeds what `json.Unmarshal` does for the concrete target types of
package `format` (no custom unmarshalers):
* `null` into any target leaves its zero value (`none` for pointers);
* a struct decodes from an object, matching keys to field tags exactly or
  ASCII-case-insensitively, later duplicates overwriting earlier ones;
  unknown keys are ignored;
* a slice decodes from an array; any other kind is a type error;
* Go reports a type error after finishing the walk — observationally, `ok`
  versus `error` is exactly preserved by the short-circuiting `Except`. -/

def asciiLower (s : String) : String :=
  ⟨s.data.map fun c => if 'A' ≤ c ∧ c ≤ 'Z' then Char.ofNat (c.toNat + 32) else c⟩

/-- The JSON value that ends up assigned to the struct field with tag `name`:
the last member whose key matches the tag (case-insensitively). -/
def jsonFieldGet (fields : List (String × Json)) (name : String) : Option Json :=
  ((fields.filter fun kv => asciiLower kv.1 == asciiLower name).getLast?).map (·.2)

def decodeGoString (j : Json) : Except String String :=
  match j with
  | .null => .ok ""
  | .str s => .ok s
  | _ => .error "cannot unmarshal value into field of type string"

def decodeGoBool (j : Json) : Except String Bool :=
  match j with
  | .null => .ok false
  | .bool b => .ok b
  | _ => .error "cannot unmarshal value into field of type bool"

def digitsToNat (ds : List Char) : Nat :=
  ds.foldl (fun a c => 10 * a + (c.toNat - 48)) 0

/-- Go `strconv.ParseInt` on a JSON number literal: an optional minus sign and
decimal digits; fractional or exponent parts make an `int` field fail. -/
def parseIntLit (lit : String) : Option Int :=
  match lit.data with
  | '-' :: ds => if ds ≠ [] ∧ ds.all isDigit then some (-(digitsToNat ds : Int)) else none
  | ds => if ds ≠ [] ∧ ds.all isDigit then some (digitsToNat ds : Int) else none

def decodeGoInt (j : Json) : Except String Int :=
  match j with
  | .null => .ok 0
  | .num lit =>
    match parseIntLit lit with
    | some n => .ok n
    | none => .error "cannot unmarshal number into field of type int"
  | _ => .error "cannot unmarshal value into field of type int"

def decodeOptInt (j : Json) : Except String (Option Int) :=
  match j with
  | .null => .ok none
  | .num lit =>
    match parseIntLit lit with
    | some n => .ok (some n)
    | none => .error "cannot unmarshal number into field of type int"
  | _ => .error "cannot unmarshal value into field of type int"

def decodeOptNumLit (j : Json) : Except String (Option String) :=
  match j with
  | .null => .ok none
  | .num lit => .ok (some lit)
  | _ => .error "cannot unmarshal value into field of type float64"

/-- Field lookup with the Go zero value for absent members. -/
def decodeField {α : Type} (fs : List (String × Json)) (name : String)
    (dec : Json → Except String α) (dflt : α) : Except String α :=
  match jsonFieldGet fs name with
  | none => .ok dflt
  | some j => dec j

def decodeLocationFields (fs : List (String × Json)) : Except String Location := do
  let id ← decodeField fs "id" decodeGoString ""
  let name ← decodeField fs "name" decodeGoString ""
  let ty ← decodeField fs "type" decodeGoString ""
  let lat ← decodeField fs "latitude" decodeOptNumLit none
  let lon ← decodeField fs "longitude" decodeOptNumLit none
  let dist ← decodeField fs "distance" decodeOptInt none
  return ⟨id, name, ty, lat, lon, dist⟩

def decodeLocation (j : Json) : Except String Location :=
  match j with
  | .null => .ok default
  | .obj fs => decodeLocationFields fs
  | _ => .error "cannot unmarshal value into Location"

def decodeOptLocation (j : Json) : Except String (Option Location) :=
  match j with
  | .null => .ok none
  | .obj fs => (decodeLocationFields fs).map some
  | _ => .error "cannot unmarshal value into *Location"

def decodeLine (j : Json) : Except String Line :=
  match j with
  | .null => .ok default
  | .obj fs => do
    let name ← decodeField fs "name" decodeGoString ""
    return ⟨name⟩
  | _ => .error "cannot unmarshal value into Line"

def decodeStopover (j : Json) : Except String Stopover :=
  match j with
  | .null => .ok default
  | .obj fs => do
    let w ← decodeField fs "when" decodeGoString ""
    let pw ← decodeField fs "plannedWhen" decodeGoString ""
    let delay ← decodeField fs "delay" decodeOptInt none
    let platform ← decodeField fs "platform" decodeGoString ""
    let pp ← decodeField fs "plannedPlatform" decodeGoString ""
    let cancelled ← decodeField fs "cancelled" decodeGoBool false
    let direction ← decodeField fs "direction" decodeGoString ""
    let line ← decodeField fs "line" decodeLine default
    let stop ← decodeField fs "stop" decodeLocation default
    return ⟨w, pw, delay, platform, pp, cancelled, direction, line, stop⟩
  | _ => .error "cannot unmarshal value into Stopover"

/-- Go `var locations []Location; json.Unmarshal(data, &locations)`
(part_003:88-91): the top level must be an array or `null`. -/
def decodeLocations (j : Json) : Except String (List Location) :=
  match j with
  | .null => .ok []
  | .arr es => es.mapM decodeLocation
  | _ => .error "cannot unmarshal value into []Location"

/-- Go `var stopovers []Stopover; json.Unmarshal(data, &stopovers)`
(part_003:117-120): the top level must be an array or `null`; in particular a
JSON object (an envelope) is a type error. -/
def decodeStopovers (j : Json) : Except String (List Stopover) :=
  match j with
  | .null => .ok []
  | .arr es => es.mapM decodeStopover
  | _ => .error "cannot unmarshal object into []Stopover"

def decodeLeg (j : Json) : Except String Leg :=
  match j with
  | .null => .ok default
  | .obj fs => do
    let origin ← decodeField fs "origin" decodeOptLocation none
    let dest ← decodeField fs "destination" decodeOptLocation none
    let dep ← decodeField fs "departure" decodeGoString ""
    let pdep ← decodeField fs "plannedDeparture" decodeGoString ""
    let arr ← decodeField fs "arrival" decodeGoString ""
    let parr ← decodeField fs "plannedArrival" decodeGoString ""
    return ⟨origin, dest, dep, pdep, arr, parr⟩
  | _ => .error "cannot unmarshal value into Leg"

def decodeLegs (j : Json) : Except String (List Leg) :=
  match j with
  | .null => .ok []
  | .arr es => es.mapM decodeLeg
  | _ => .error "cannot unmarshal value into []Leg"

def decodeJourney (j : Json) : Except String Journey :=
  match j with
  | .null => .ok default
  | .obj fs => do
    let legs ← decodeField fs "legs" decodeLegs []
    let transfers ← decodeField fs "transfers" decodeGoInt 0
    return ⟨legs, transfers⟩
  | _ => .error "cannot unmarshal value into Journey"

def decodeJourneys (j : Json) : Except String (List Journey) :=
  match j with
  | .null => .ok []
  | .arr es => es.mapM decodeJourney
  | _ => .error "cannot unmarshal value into []Journey"

/-- Go `var resp JourneysResponse; json.Unmarshal(data, &resp)`
(part_003:152-155). -/
def decodeJourneysResponse (j : Json) : Except String JourneysResponse :=
  match j with
  | .null => .ok ⟨[]⟩
  | .obj fs => do
    let journeys ← decodeField fs "journeys" decodeJourneys []
    return ⟨journeys⟩
  | _ => .error "cannot unmarshal value into JourneysResponse"

def decodeTripStop (j : Json) : Except String TripStop :=
  match j with
  | .null => .ok default
  | .obj fs => do
    let stop ← decodeField fs "stop" decodeLocation default
    let arr ← decodeField fs "arrival" decodeGoString ""
    let parr ← decodeField fs "plannedArrival" decodeGoString ""
    let dep ← decodeField fs "departure" decodeGoString ""
    let pdep ← decodeField fs "plannedDeparture" decodeGoString ""
    let platform ← decodeField fs "platform" decodeGoString ""
    let pp ← decodeField fs "plannedPlatform" decodeGoString ""
    return ⟨stop, arr, parr, dep, pdep, platform, pp⟩
  | _ => .error "cannot unmarshal value into TripStop"

def decodeTripStops (j : Json) : Except String (List TripStop) :=
  match j with
  | .null => .ok []
  | .arr es => es.mapM decodeTripStop
  | _ => .error "cannot unmarshal value into []TripStop"

def decodeTrip (j : Json) : Except String Trip :=
  match j with
  | .null => .ok default
  | .obj fs => do
    let line ← decodeField fs "line" decodeLine default
    let stopovers ← decodeField fs "stopovers" decodeTripStops []
    return ⟨line, stopovers⟩
  | _ => .error "cannot unmarshal value into Trip"

/-- Go `var resp TripResponse; json.Unmarshal(data, &resp)` (part_003:189-192). -/
def decodeTripResponse (j : Json) : Except String TripResponse :=
  match j with
  | .null => .ok ⟨default⟩
  | .obj fs => do
    let trip ← decodeField fs "trip" decodeTrip default
    return ⟨trip⟩
  | _ => .error "cannot unmarshal value into TripResponse"

def decodePosition (j : Json) : Except String Position :=
  match j with
  | .null => .ok default
  | .obj fs => do
    let lat ← decodeField fs "latitude" decodeOptNumLit none
    let lon ← decodeField fs "longitude" decodeOptNumLit none
    return ⟨lat, lon⟩
  | _ => .error "cannot unmarshal value into Position"

def decodeMovement (j : Json) : Except String Movement :=
  match j with
  | .null => .ok default
  | .obj fs => do
    let line ← decodeField fs "line" decodeLine default
    let direction ← decodeField fs "direction" decodeGoString ""
    let location ← decodeField fs "location" decodePosition default
    return ⟨line, direction, location⟩
  | _ => .error "cannot unmarshal value into Movement"

def decodeMovements (j : Json) : Except String (List Movement) :=
  match j with
  | .null => .ok []
  | .arr es => es.mapM decodeMovement
  | _ => .error "cannot unmarshal value into []Movement"

/-- Go `var resp RadarResponse; json.Unmarshal(data, &resp)` (part_003:220-223). -/
def decodeRadarResponse (j : Json) : Except String RadarResponse :=
  match j with
  | .null => .ok ⟨[]⟩
  | .obj fs => do
    let movements ← decodeField fs "movements" decodeMovements []
    return ⟨movements⟩
  | _ => .error "cannot unmarshal value into RadarResponse"

/-! ## Table renderers (package `format`, part_003:86-243) -/

/-- The `strings.Builder` accumulation of row strings. -/
def concatRows : List String → String
  | [] => ""
  | r :: rest => r ++ concatRows rest

/-- One output row of `LocationsPlain`. -/
def locationRow (loc : Location) : String :=
  loc.id ++ "\t" ++ loc.name ++ "\t" ++ loc.type ++ "\t" ++
  formatFloat loc.latitude ++ "\t" ++ formatFloat loc.longitude ++ "\t" ++
  formatInt loc.distance ++ "\n"

/-- The rendering stage of `LocationsPlain` after decoding (part_003:92-112). -/
def locationsRender (locations : List Location) (withHeader : Bool) : String :=
  if locations = [] then
    if withHeader then "no results\n" else ""
  else
    (if withHeader then "id\tname\ttype\tlatitude\tlongitude\tdistance_m\n" else "") ++
    concatRows (locations.map locationRow)

/-- Go `format.LocationsPlain` (part_003:87-113). -/
def LocationsPlain (data : String) (withHeader : Bool) : Except String String :=
  match parseJson data with
  | .error msg => .error msg
  | .ok j =>
    match decodeLocations j with
    | .error msg => .error msg
    | .ok locations => .ok (locationsRender locations withHeader)

/-- One output row of `StopoversPlain` (part_003:131-146). -/
def stopoverRow (s : Stopover) : String :=
  pickTime s.when s.plannedWhen ++ "\t" ++ s.line.name ++ "\t" ++
  s.direction ++ "\t" ++ pickString s.platform s.plannedPlatform ++ "\t" ++
  formatDelay s.delay ++ "\t" ++ (if s.cancelled then "cancelled" else "-") ++ "\n"

/-- The rendering stage of `StopoversPlain` after decoding (part_003:121-147). -/
def stopoversRender (stopovers : List Stopover) (withHeader : Bool) : String :=
  if stopovers = [] then
    if withHeader then "no results\n" else ""
  else
    (if withHeader then "time\tline\tdirection\tplatform\tdelay\tstatus\n" else "") ++
    concatRows (stopovers.map stopoverRow)

/-- Go `format.StopoversPlain` (part_003:116-148). -/
def StopoversPlain (data : String) (withHeader : Bool) : Except String String :=
  match parseJson data with
  | .error msg => .error msg
  | .ok j =>
    match decodeStopovers j with
    | .error msg => .error msg
    | .ok stopovers => .ok (stopoversRender stopovers withHeader)

/-- The line one journey contributes (part_003:166-183): nothing when it has
no legs, else one row built from its first and last leg. -/
def journeyRow (j : Journey) : String :=
  match j.legs with
  | [] => ""
  | l :: rest =>
    let lastLeg := (l :: rest).getLast (by simp)
    pickTime l.departure l.plannedDep ++ "\t" ++ locationName l.origin ++ "\t" ++
    pickTime lastLeg.arrival lastLeg.plannedArr ++ "\t" ++
    locationName lastLeg.destination ++ "\t" ++ toString j.transfers ++ "\n"

/-- The row lines of the journeys table: the loop of part_003:166-183, in
which a journey with no legs contributes nothing. -/
def journeysBody (js : List Journey) : String := concatRows (js.map journeyRow)

/-- The rendering stage of `JourneysPlain` after decoding (part_003:156-184). -/
def journeysRender (resp : JourneysResponse) (withHeader : Bool) : String :=
  if resp.journeys = [] then
    if withHeader then "no results\n" else ""
  else
    (if withHeader then "departure\torigin\tarrival\tdestination\ttransfers\n" else "") ++
    journeysBody resp.journeys

/-- Go `format.JourneysPlain` (part_003:151-185). -/
def JourneysPlain (data : String) (withHeader : Bool) : Except String String :=
  match parseJson data with
  | .error msg => .error msg
  | .ok j =>
    match decodeJourneysResponse j with
    | .error msg => .error msg
    | .ok resp => .ok (journeysRender resp withHeader)

/-- One output row of `TripPlain` (part_003:203-214). -/
def tripStopRow (line : Line) (stop : TripStop) : String :=
  line.name ++ "\t" ++ stop.stop.name ++ "\t" ++
  pickTime stop.arrival stop.plannedArrival ++ "\t" ++
  pickTime stop.departure stop.plannedDeparture ++ "\t" ++
  pickString stop.platform stop.plannedPlatform ++ "\n"

/-- The rendering stage of `TripPlain` after decoding (part_003:193-215). -/
def tripRender (resp : TripResponse) (withHeader : Bool) : String :=
  if resp.trip.stopovers = [] then
    if withHeader then "no results\n" else ""
  else
    (if withHeader then "line\tstop\tarrival\tdeparture\tplatform\n" else "") ++
    concatRows (resp.trip.stopovers.map (tripStopRow resp.trip.line))

/-- Go `format.TripPlain` (part_003:188-216). -/
def TripPlain (data : String) (withHeader : Bool) : Except String String :=
  match parseJson data with
  | .error msg => .error msg
  | .ok j =>
    match decodeTripResponse j with
    | .error msg => .error msg
    | .ok resp => .ok (tripRender resp withHeader)

/-- One output row of `RadarPlain` (part_003:234-241). -/
def movementRow (m : Movement) : String :=
  m.line.name ++ "\t" ++ m.direction ++ "\t" ++
  formatFloat m.location.latitude ++ "\t" ++ formatFloat m.location.longitude ++ "\n"

/-- The rendering stage of `RadarPlain` after decoding (part_003:224-242). -/
def radarRender (resp : RadarResponse) (withHeader : Bool) : String :=
  if resp.movements = [] then
    if withHeader then "no results\n" else ""
  else
    (if withHeader then "line\tdirection\tlatitude\tlongitude\n" else "") ++
    concatRows (resp.movements.map movementRow)

/-- Go `format.RadarPlain` (part_003:219-243). -/
def RadarPlain (data : String) (withHeader : Bool) : Except String String :=
  match parseJson data with
  | .error msg => .error msg
  | .ok j =>
    match decodeRadarResponse j with
    | .error msg => .error msg
    | .ok resp => .ok (radarRender resp withHeader)

/-! ## Package `api`: URL composition, transport classification (part_001)

Go strings on this side are byte sequences, embedded as `List Nat` with every
element `< 256`.  Notable byte values: `/` 47, `?` 63, `&` 38, `=` 61, `%` 37,
`+` 43, `;` 59, `#` 35, `:` 58, space 32. -/

/-- UTF-8 bytes of an ASCII string literal (all literals used are ASCII). -/
def bytes (s : String) : List Nat := s.data.map Char.toNat

def isBytes (s : List Nat) : Prop := ∀ b ∈ s, b < 256

instance (s : List Nat) : Decidable (isBytes s) := List.decidableBAll _ s

/-- Go `strings.TrimLeft(path, "/")` (part_001:98). -/
def trimLeftSlashes (s : List Nat) : List Nat := s.dropWhile (· == 47)

/-- Go `strings.TrimRight(base.Path, "/")` (part_001:99). -/
def trimRightSlashes (s : List Nat) : List Nat :=
  (s.reverse.dropWhile (· == 47)).reverse

/-- The merged path of `buildURL` (part_001:98-103). -/
def buildURLPath (basePath path : List Nat) : List Nat :=
  let cleanPath := trimLeftSlashes path
  let bp := trimRightSlashes basePath
  if bp = [] then 47 :: cleanPath else bp ++ 47 :: cleanPath

/-! ### Query encoding (`net/url.Values.Encode` / `url.ParseQuery`) -/

def isAlphaNumByte (b : Nat) : Bool :=
  (48 ≤ b ∧ b ≤ 57) ∨ (65 ≤ b ∧ b ≤ 90) ∨ (97 ≤ b ∧ b ≤ 122)

/-- Go `url.shouldEscape` for query components: everything but alphanumerics and
`-._~` is escaped (space becomes `+` in the caller). -/
def shouldEscapeQuery (b : Nat) : Bool :=
  ¬ (isAlphaNumByte b ∨ b = 45 ∨ b = 46 ∨ b = 95 ∨ b = 126)

def upperHexDigit (n : Nat) : Nat := if n < 10 then 48 + n else 55 + n

/-- The encoding of one byte under `url.QueryEscape`. -/
def escByte (b : Nat) : List Nat :=
  if b = 32 then [43]
  else if shouldEscapeQuery b then [37, upperHexDigit (b / 16), upperHexDigit (b % 16)]
  else [b]

/-- Go `url.QueryEscape`. -/
def queryEscape (s : List Nat) : List Nat := (s.map escByte).flatten

/-- Go `url.Values`: a finite map from keys to value lists, embedded as an
association list.  Well-formedness (`ValuesWF`) demands distinct keys. -/
abbrev Values := List (List Nat × List (List Nat))

/-- Byte-lexicographic order on keys (Go `string` comparison, as used by the
key sort in `Values.Encode`). -/
def lexLe : List Nat → List Nat → Bool
  | [], _ => true
  | _ :: _, [] => false
  | a :: as, b :: bs => if a < b then true else if a = b then lexLe as bs else false

/-- The key sort of `Values.Encode` (`sort.Strings(keys)`), applied to the
association-list embedding of the map. -/
def sortValues (v : Values) : Values :=
  List.insertionSort (fun a b => lexLe a.1 b.1 = true) v

/-- The `key=value` pairs a `Values` contributes, keys in list order, each
value list in order. -/
def valuesPairs (v : Values) : List (List Nat × List Nat) :=
  v.flatMap fun kv => kv.2.map fun w => (kv.1, w)

def encodePair (k v : List Nat) : List Nat := queryEscape k ++ 61 :: queryEscape v

def byteJoin (sep : Nat) : List (List Nat) → List Nat
  | [] => []
  | [s] => s
  | s :: rest => s ++ sep :: byteJoin sep rest

/-- Go `Values.Encode` (sort keys, escape, join with `&`). -/
def encodeValues (v : Values) : List Nat :=
  byteJoin 38 ((valuesPairs (sortValues v)).map fun kv => encodePair kv.1 kv.2)

/-- Go `strings.Cut(s, sep)` for a one-byte separator: the part before the first
separator and the part after it (`(s, "")` when absent). -/
def cutByte (sep : Nat) : List Nat → List Nat × List Nat
  | [] => ([], [])
  | c :: rest =>
    if c = sep then ([], rest)
    else
      let p := cutByte sep rest
      (c :: p.1, p.2)

def hexVal (b : Nat) : Option Nat :=
  if 48 ≤ b ∧ b ≤ 57 then some (b - 48)
  else if 97 ≤ b ∧ b ≤ 102 then some (b - 87)
  else if 65 ≤ b ∧ b ≤ 70 then some (b - 55)
  else none

/-- Go `url.QueryUnescape`: `+` → space, `%XY` → the byte, `%` without two hex
digits is an error. -/
def queryUnescape : List Nat → Option (List Nat)
  | [] => some []
  | b :: rest =>
    if b = 37 then
      match rest with
      | x :: y :: rest2 =>
        match hexVal x, hexVal y with
        | some hx, some hy => (queryUnescape rest2).map fun r => (16 * hx + hy) :: r
        | _, _ => none
      | _ => none
    else if b = 43 then (queryUnescape rest).map fun r => 32 :: r
    else (queryUnescape rest).map fun r => b :: r

/-- Go `m[key] = append(m[key], value)` on the association-list embedding: new
keys are appended at the end. -/
def addValue (m : Values) (k v : List Nat) : Values :=
  match m with
  | [] => [(k, [v])]
  | (k', vs) :: rest =>
    if k' = k then (k', vs ++ [v]) :: rest else (k', vs) :: addValue rest k v

/-- Go `s.split(sep)` on bytes; iterating `strings.Cut(query, "&")` until the
query is empty visits exactly these segments. -/
def splitOnByte (sep : Nat) : List Nat → List (List Nat)
  | [] => [[]]
  | c :: rest =>
    match splitOnByte sep rest with
    | [] => [[]]
    | s :: ss => if c = sep then [] :: s :: ss else (c :: s) :: ss

/-- One iteration body of `url.parseQuery`: reject `;`, skip empty segments,
cut at the first `=`, unescape both halves.  `none` stands for Go's non-nil
`err` (Go keeps scanning after an error but still reports it, so success
versus failure agrees). -/
def parseQuerySegs : List (List Nat) → Values → Option Values
  | [], m => some m
  | seg :: rest, m =>
    if seg.contains 59 then none
    else if seg = [] then parseQuerySegs rest m
    else
      let kv := cutByte 61 seg
      match queryUnescape kv.1, queryUnescape kv.2 with
      | some ku, some vu => parseQuerySegs rest (addValue m ku vu)
      | _, _ => none

/-- Go `url.ParseQuery` (successful results only; `none` is a non-nil error). -/
def parseQuery (q : List Nat) : Option Values :=
  if q = [] then some [] else parseQuerySegs (splitOnByte 38 q) []

/-! ### URLs and `buildURL` -/

/-- The parts of `net/url.URL` this program uses.  User info, opaque data,
fragments and escaping state are not modelled (the composed URLs carry
none). -/
structure URLRec where
  scheme : List Nat
  host : List Nat
  path : List Nat
  rawQuery : List Nat
deriving Repr, DecidableEq, Inhabited

/-- Go `api.buildURL` (part_001:94-112) for a non-nil base: merge the path, set
the raw query from the parameters (empty parameter set ⇒ empty query). -/
def buildURL (base : URLRec) (path : List Nat) (params : Values) : URLRec :=
  { base with
    path := buildURLPath base.path path
    rawQuery := if params ≠ [] then encodeValues params else [] }

/-- The scheme/host/path part of `URL.String`. -/
def urlStringBase (u : URLRec) : List Nat :=
  (if u.scheme ≠ [] then u.scheme ++ [58] else []) ++
  (if u.host ≠ [] then [47, 47] ++ u.host else []) ++
  u.path

/-- Go `URL.String` for URLs of the shape this program composes: scheme, host,
path, and `?query` exactly when the raw query is non-empty. -/
def urlString (u : URLRec) : List Nat :=
  urlStringBase u ++ (if u.rawQuery ≠ [] then 63 :: u.rawQuery else [])

/-- Well-formed parameter set: distinct keys, no key without values, and all
keys and values are byte strings. -/
def ValuesWF (v : Values) : Prop :=
  (v.map Prod.fst).Nodup ∧
  ∀ kv ∈ v, kv.2 ≠ [] ∧ isBytes kv.1 ∧ ∀ w ∈ kv.2, isBytes w

instance (v : Values) : Decidable (ValuesWF v) := by
  unfold ValuesWF
  infer_instance

/-! ### Transport classification (`Client.Get`, `HTTPError`) -/

structure HTTPError where
  Status : Nat
  Body : List Nat
deriving Repr, DecidableEq, Inhabited

/-- ASCII white space (`asciiSpace` table of `strings.TrimSpace`).  Bodies
with non-ASCII Unicode white space at the edges are outside the model. -/
def asciiSpaceByte (b : Nat) : Bool :=
  b = 32 ∨ b = 9 ∨ b = 10 ∨ b = 11 ∨ b = 12 ∨ b = 13

/-- Go `strings.TrimSpace` on a response body. -/
def trimSpaceBytes (s : List Nat) : List Nat :=
  ((s.dropWhile asciiSpaceByte).reverse.dropWhile asciiSpaceByte).reverse

/-- Go `net/http.StatusText` restricted to common codes; unknown codes give the
empty string exactly as in Go. -/
def statusText (code : Nat) : List Nat :=
  if code = 200 then bytes "OK"
  else if code = 201 then bytes "Created"
  else if code = 204 then bytes "No Content"
  else if code = 301 then bytes "Moved Permanently"
  else if code = 302 then bytes "Found"
  else if code = 400 then bytes "Bad Request"
  else if code = 401 then bytes "Unauthorized"
  else if code = 403 then bytes "Forbidden"
  else if code = 404 then bytes "Not Found"
  else if code = 429 then bytes "Too Many Requests"
  else if code = 500 then bytes "Internal Server Error"
  else if code = 502 then bytes "Bad Gateway"
  else if code = 503 then bytes "Service Unavailable"
  else if code = 504 then bytes "Gateway Timeout"
  else []

/-- Go `api.summarize` (part_001:129-134). -/
def summarize (msg : List Nat) (mx : Nat) : List Nat :=
  if msg.length ≤ mx then msg else msg.take mx ++ bytes "..."

/-- Go `HTTPError.Error` (part_001:120-127): body-derived message, reason phrase
when the trimmed body is empty, capped at 200 bytes. -/
def HTTPError.Error (e : HTTPError) : List Nat :=
  let msg0 := trimSpaceBytes e.Body
  let msg1 := if msg0 = [] then statusText e.Status else msg0
  bytes "request failed: " ++ bytes (toString e.Status) ++ [32] ++ summarize msg1 200

/-- The outcome classification of `Client.Get` once a response with a status
code and a fully-read body is in hand (part_001:88-91).  Request creation and
network transfer are I/O and sit outside the embedding. -/
def getClassify (status : Nat) (body : List Nat) : Except HTTPError (List Nat) :=
  if status < 200 ∨ 300 ≤ status then .error ⟨status, body⟩ else .ok body

/-! ### `url.Parse` and `NewClient` (part_001:35-53)

`urlParse` embeds the fragment of `net/url.Parse` these bases exercise:
control-byte rejection, fragment cut, scheme detection, query cut, the
colon-in-first-segment check for scheme-less URLs, authority splitting after
`//`, and percent-escape validation of the path.  User info, host
sub-validation and opaque (rootless) paths keep no dedicated representation:
an opaque remainder is stored as the path. -/

def containsCTL (s : List Nat) : Bool := s.any fun b => b < 32 ∨ b = 127

def toLowerBytes (s : List Nat) : List Nat :=
  s.map fun b => if 65 ≤ b ∧ b ≤ 90 then b + 32 else b

/-- Every `%` is followed by two hex digits (`URL.setPath` validation). -/
def validEscapes : List Nat → Bool
  | [] => true
  | 37 :: x :: y :: rest => (hexVal x).isSome ∧ (hexVal y).isSome ∧ validEscapes rest
  | 37 :: _ => false
  | _ :: rest => validEscapes rest

/-- Go `url.getScheme`: scan an initial `[A-Za-z][A-Za-z0-9+-.]*` up to `:`;
a leading `:` is an error; anything else means no scheme. -/
def getSchemeAux (acc orig : List Nat) : List Nat → Except String (List Nat × List Nat)
  | [] => .ok ([], orig)
  | c :: rest =>
    if (65 ≤ c ∧ c ≤ 90) ∨ (97 ≤ c ∧ c ≤ 122) then getSchemeAux (acc ++ [c]) orig rest
    else if (48 ≤ c ∧ c ≤ 57) ∨ c = 43 ∨ c = 45 ∨ c = 46 then
      if acc = [] then .ok ([], orig) else getSchemeAux (acc ++ [c]) orig rest
    else if c = 58 then
      if acc = [] then .error "missing protocol scheme" else .ok (acc, rest)
    else .ok ([], orig)

def getScheme (s : List Nat) : Except String (List Nat × List Nat) :=
  getSchemeAux [] s s

def urlParse (rawURL : List Nat) : Except String URLRec :=
  if containsCTL rawURL then .error "net/url: invalid control character in URL"
  else
    match getScheme (cutByte 35 rawURL).1 with
    | .error msg => .error msg
    | .ok (scheme0, rest0) =>
      let scheme := toLowerBytes scheme0
      let (rest1, rawQuery) := cutByte 63 rest0
      if scheme ≠ [] ∧ rest1.head? ≠ some 47 then
        .ok ⟨scheme, [], rest1, rawQuery⟩
      else if scheme = [] ∧ rest1.head? ≠ some 47 ∧ (cutByte 47 rest1).1.contains 58 then
        .error "first path segment in URL cannot contain colon"
      else if rest1.take 2 = [47, 47] ∧ (scheme ≠ [] ∨ rest1.take 3 ≠ [47, 47, 47]) then
        let a := rest1.drop 2
        let host := a.takeWhile (· ≠ 47)
        let p := a.dropWhile (· ≠ 47)
        if validEscapes p then .ok ⟨scheme, host, p, rawQuery⟩
        else .error "invalid URL escape"
      else if validEscapes rest1 then .ok ⟨scheme, [], rest1, rawQuery⟩
      else .error "invalid URL escape"

/-- Go `URL.IsAbs`: a URL is absolute exactly when it has a scheme. -/
def isAbs (u : URLRec) : Bool := u.scheme ≠ []

/-- Go `api.NewClient` (part_001:35-53), reduced to its base-URL validation: a
blank base or a parse failure is a configuration error; any parse success
constructs the client.  Timeout defaulting and the HTTP handle are I/O
configuration outside the claims. -/
def NewClient (baseURL : List Nat) : Except String URLRec :=
  if trimSpaceBytes baseURL = [] then .error "base URL is required"
  else
    match urlParse baseURL with
    | .error msg => .error ("parse base URL: " ++ msg)
    | .ok u => .ok u

/-! ## Theorems -/

/-- C7: `render_delay` of an absent value is `"-"`; of exactly zero is
`"0m"`; of a non-zero value evenly divisible by 60 is the signed whole number
of minutes with an explicit sign and an `m` suffix (no rounding: the minute
count `m` satisfies `d = 60 * m` exactly, and `120` gives `"+2m"`); of every
other value it is the signed whole number of seconds with an `s` suffix
(`-90` gives `"-90s"`). -/
theorem formatDelay_spec :
    formatDelay none = "-" ∧
    formatDelay (some 0) = "0m" ∧
    (∀ d : Int, d ≠ 0 → (60 : Int) ∣ d →
      ∃ m : Int, d = 60 * m ∧ formatDelay (some d) = fmtPlusInt m ++ "m") ∧
    (∀ d : Int, ¬ (60 : Int) ∣ d → formatDelay (some d) = fmtPlusInt d ++ "s") ∧
    formatDelay (some 120) = "+2m" ∧ formatDelay (some (-90)) = "-90s" := by
  refine ⟨rfl, rfl, ?_, ?_, rfl, rfl⟩
  · intro d hd hdvd
    obtain ⟨m, rfl⟩ := hdvd
    refine ⟨m, rfl, ?_⟩
    simp only [formatDelay]
    rw [if_neg hd, if_pos (Int.mul_tmod_right 60 m),
      Int.mul_tdiv_cancel_left m (by norm_num)]
  · intro d hdvd
    have hd : d ≠ 0 := by rintro rfl; exact hdvd ⟨0, by norm_num⟩
    have hm : Int.tmod d 60 ≠ 0 := fun h => hdvd (Int.dvd_of_tmod_eq_zero h)
    simp only [formatDelay]
    rw [if_neg hd, if_neg hm]

/-- C7 witness: the divisible and non-divisible branches at `120` and `-90`. -/
theorem formatDelay_spec_witness :
    (∃ m : Int, (120 : Int) = 60 * m ∧ formatDelay (some 120) = fmtPlusInt m ++ "m") ∧
    formatDelay (some (-90)) = fmtPlusInt (-90) ++ "s" :=
  ⟨formatDelay_spec.2.2.1 120 (by norm_num) (by norm_num),
   formatDelay_spec.2.2.2.1 (-90) (by decide)⟩

/-- C8: every endpoint kind's renderer on an empty decoded record sequence
produces exactly `"no results\n"` when the header flag is set and the empty
string when it is not. -/
theorem render_empty_spec :
    (locationsRender [] true = "no results\n" ∧ locationsRender [] false = "") ∧
    (stopoversRender [] true = "no results\n" ∧ stopoversRender [] false = "") ∧
    (journeysRender ⟨[]⟩ true = "no results\n" ∧ journeysRender ⟨[]⟩ false = "") ∧
    (∀ line : Line, tripRender ⟨⟨line, []⟩⟩ true = "no results\n" ∧
      tripRender ⟨⟨line, []⟩⟩ false = "") ∧
    (radarRender ⟨[]⟩ true = "no results\n" ∧ radarRender ⟨[]⟩ false = "") :=
  ⟨⟨rfl, rfl⟩, ⟨rfl, rfl⟩, ⟨rfl, rfl⟩, fun _ => ⟨rfl, rfl⟩, ⟨rfl, rfl⟩⟩

/-- C10: the payload `null` (valid JSON whose top level is neither an array
nor an object of the expected shape) is not a decode error for any endpoint
kind: it decodes to the empty record sequence and renders as the empty-result
output. -/
theorem null_payload_spec :
    LocationsPlain "null" true = .ok "no results\n" ∧ LocationsPlain "null" false = .ok "" ∧
    StopoversPlain "null" true = .ok "no results\n" ∧ StopoversPlain "null" false = .ok "" ∧
    JourneysPlain "null" true = .ok "no results\n" ∧ JourneysPlain "null" false = .ok "" ∧
    TripPlain "null" true = .ok "no results\n" ∧ TripPlain "null" false = .ok "" ∧
    RadarPlain "null" true = .ok "no results\n" ∧ RadarPlain "null" false = .ok "" :=
  ⟨rfl, rfl, rfl, rfl, rfl, rfl, rfl, rfl, rfl, rfl⟩

/-- C1 (divergence witness): `StopoversPlain` applied to a stopovers payload
wrapped in a `"departures"` envelope is a decode error, while the bare array
of the same (here: zero) records succeeds — the code never unwraps the
envelope, contradicting `TestStopoversPlainEnvelope` and the spec. -/
theorem stopovers_envelope_divergence :
    StopoversPlain "\x7b\"departures\":[]\x7d" true = .error "cannot unmarshal object into []Stopover" ∧
    StopoversPlain "[]" true = .ok "no results\n" :=
  ⟨rfl, rfl⟩

theorem trimLeftSlashes_cons_slash (p : List Nat) :
    trimLeftSlashes (47 :: p) = trimLeftSlashes p := by
  simp [trimLeftSlashes, List.dropWhile]

theorem buildURLPath_eq (bp p : List Nat) :
    buildURLPath bp p = trimRightSlashes bp ++ 47 :: trimLeftSlashes p := by
  unfold buildURLPath
  by_cases h : trimRightSlashes bp = []
  · rw [if_pos h, h]
    rfl
  · rw [if_neg h]

/-- C2: the composed target's path is the base's path with trailing slashes
removed, a single `/`, and the resource path with leading slashes removed;
an empty base path yields `/` plus the cleaned resource path; a leading `/`
on the resource path changes nothing, and the cleaned base path is always a
prefix of the result. -/
theorem buildURL_path_spec :
    ∀ (base : URLRec) (path : List Nat) (params : Values),
      (buildURL base path params).path =
        trimRightSlashes base.path ++ 47 :: trimLeftSlashes path ∧
      (base.path = [] → (buildURL base path params).path = 47 :: trimLeftSlashes path) ∧
      (buildURL base (47 :: path) params).path = (buildURL base path params).path ∧
      ∃ rest, (buildURL base path params).path = trimRightSlashes base.path ++ rest := by
  intro base path params
  refine ⟨buildURLPath_eq base.path path, ?_, ?_, ?_⟩
  · intro h
    rw [show (buildURL base path params).path = buildURLPath base.path path from rfl,
      buildURLPath_eq, h]
    rfl
  · rw [show (buildURL base (47 :: path) params).path = buildURLPath base.path (47 :: path) from rfl,
      show (buildURL base path params).path = buildURLPath base.path path from rfl,
      buildURLPath_eq, buildURLPath_eq, trimLeftSlashes_cons_slash]
  · exact ⟨47 :: trimLeftSlashes path, buildURLPath_eq base.path path⟩

/-- C2 witness: an empty base path composed with `/locations` yields `/`
plus the cleaned resource path. -/
theorem buildURL_path_spec_witness :
    (buildURL ⟨bytes "https", bytes "h", [], []⟩ (bytes "/locations") []).path =
      47 :: trimLeftSlashes (bytes "/locations") :=
  (buildURL_path_spec ⟨bytes "https", bytes "h", [], []⟩ (bytes "/locations") []).2.1 rfl

/-- C4: a status in [200,300) returns the body as a success; any status
outside that range returns an `HTTPError` carrying that status and the body,
never a success payload; a 404 with body `{"error":"not found"}` yields the
failure with status 404 and a non-empty body-derived message. -/
theorem getClassify_spec :
    (∀ (status : Nat) (body : List Nat), 200 ≤ status → status < 300 →
      getClassify status body = .ok body) ∧
    (∀ (status : Nat) (body : List Nat), status < 200 ∨ 300 ≤ status →
      getClassify status body = .error ⟨status, body⟩ ∧
      ∀ payload, getClassify status body ≠ .ok payload) ∧
    (getClassify 404 (bytes "\x7b\"error\":\"not found\"\x7d") =
        .error ⟨404, bytes "\x7b\"error\":\"not found\"\x7d"⟩ ∧
      HTTPError.Error ⟨404, bytes "\x7b\"error\":\"not found\"\x7d"⟩ =
        bytes "request failed: 404 \x7b\"error\":\"not found\"\x7d" ∧
      summarize (trimSpaceBytes (bytes "\x7b\"error\":\"not found\"\x7d")) 200 ≠ []) := by
  refine ⟨?_, ?_, rfl, rfl, by decide⟩
  · intro status body h1 h2
    unfold getClassify
    rw [if_neg (by omega)]
  · intro status body h
    unfold getClassify
    rw [if_pos h]
    exact ⟨rfl, fun _ => by simp⟩

/-- C4 witness: both branches at concrete statuses. -/
theorem getClassify_spec_witness :
    getClassify 204 [] = .ok [] ∧ getClassify 500 [] = .error ⟨500, []⟩ :=
  ⟨getClassify_spec.1 204 [] (by norm_num) (by norm_num),
   (getClassify_spec.2.1 500 [] (by norm_num)).1⟩

/-- C5: the transport-failure message is derived from the response body
trimmed of surrounding white space; when the trimmed body is empty the
standard reason phrase for the status is used instead; the message part is
truncated to at most 200 bytes, with an ellipsis suffix appended if and only
if truncation occurred. -/
theorem HTTPError_Error_spec :
    ∀ (status : Nat) (body : List Nat),
      (trimSpaceBytes body ≠ [] →
        HTTPError.Error ⟨status, body⟩ =
          bytes "request failed: " ++ bytes (toString status) ++ [32] ++
            summarize (trimSpaceBytes body) 200) ∧
      (trimSpaceBytes body = [] →
        HTTPError.Error ⟨status, body⟩ =
          bytes "request failed: " ++ bytes (toString status) ++ [32] ++
            summarize (statusText status) 200) ∧
      (∀ msg : List Nat,
        (msg.length ≤ 200 → summarize msg 200 = msg) ∧
        (200 < msg.length →
          summarize msg 200 = msg.take 200 ++ bytes "..." ∧
          (msg.take 200).length = 200)) := by
  intro status body
  refine ⟨?_, ?_, ?_⟩
  · intro h
    simp [HTTPError.Error, h]
  · intro h
    simp [HTTPError.Error, h]
  · intro msg
    constructor
    · intro h
      unfold summarize
      rw [if_pos h]
    · intro h
      unfold summarize
      rw [if_neg (by omega)]
      refine ⟨rfl, ?_⟩
      rw [List.length_take]
      omega

/-- C5 witness: a body-derived message, an empty-body fallback to the reason
phrase, and truncation with ellipsis on a 201-byte message. -/
theorem HTTPError_Error_spec_witness :
    HTTPError.Error ⟨500, bytes " boom "⟩ =
      bytes "request failed: " ++ bytes (toString 500) ++ [32] ++
        summarize (trimSpaceBytes (bytes " boom ")) 200 ∧
    HTTPError.Error ⟨404, bytes "  "⟩ =
      bytes "request failed: " ++ bytes (toString 404) ++ [32] ++
        summarize (statusText 404) 200 ∧
    summarize (List.replicate 201 120) 200 =
      (List.replicate 201 120).take 200 ++ bytes "..." :=
  ⟨(HTTPError_Error_spec 500 (bytes " boom ")).1 (by decide),
   (HTTPError_Error_spec 404 (bytes "  ")).2.1 (by decide),
   (((HTTPError_Error_spec 404 []).2.2 (List.replicate 201 120)).2
     (by rw [List.length_replicate]; omega)).1⟩

theorem concatRows_append (l1 l2 : List String) :
    concatRows (l1 ++ l2) = concatRows l1 ++ concatRows l2 := by
  induction l1 with
  | nil => simp [concatRows]
  | cons r rest ih => simp [concatRows, ih, String.append_assoc]

theorem journeyRow_of_no_legs (j : Journey) (h : j.legs = []) : journeyRow j = "" := by
  unfold journeyRow
  rw [h]

/-- C9: a journey with an empty legs list contributes zero lines to the
journeys table, every other journey being rendered exactly as if it were
absent — one line per journey with legs, in input order. -/
theorem journeys_zero_legs_spec :
    (∀ j : Journey, j.legs = [] → journeyRow j = "") ∧
    (∀ (pre post : List Journey) (j : Journey), j.legs = [] →
      journeysBody (pre ++ j :: post) = journeysBody (pre ++ post)) ∧
    (∀ js : List Journey,
      journeysBody js = concatRows ((js.filter fun j => !j.legs.isEmpty).map journeyRow)) := by
  refine ⟨journeyRow_of_no_legs, ?_, ?_⟩
  · intro pre post j h
    unfold journeysBody
    rw [List.map_append, List.map_append, concatRows_append, concatRows_append]
    simp [concatRows, journeyRow_of_no_legs j h]
  · intro js
    induction js with
    | nil => rfl
    | cons j rest ih =>
      unfold journeysBody at *
      by_cases h : j.legs = []
      · simp [List.filter, h, concatRows, journeyRow_of_no_legs j h, ih]
      · have : j.legs.isEmpty = false := by
          cases hl : j.legs with
          | nil => exact absurd hl h
          | cons a l => rfl
        simp [List.filter, this, concatRows, ih]

/-- C9 witness: a zero-leg journey between two rendered journeys drops out. -/
theorem journeys_zero_legs_spec_witness :
    journeysBody [⟨[default], 1⟩, ⟨[], 0⟩, ⟨[default], 2⟩] =
      journeysBody [⟨[default], 1⟩, ⟨[default], 2⟩] :=
  journeys_zero_legs_spec.2.1 [⟨[default], 1⟩] [⟨[default], 2⟩] ⟨[], 0⟩ rfl

theorem cutByte_not_mem {sep : Nat} {s : List Nat} (h : sep ∉ s) :
    cutByte sep s = (s, []) := by
  induction s with
  | nil => rfl
  | cons c rest ih =>
    have hc : c ≠ sep := fun he => h (he ▸ List.mem_cons_self c rest)
    have hr : sep ∉ rest := fun hm => h (List.mem_cons_of_mem c hm)
    simp [cutByte, hc, ih hr]

theorem trimSpaceBytes_eq_nil {s : List Nat} (h : trimSpaceBytes s = []) :
    ∀ b ∈ s, asciiSpaceByte b := by
  intro b hb
  unfold trimSpaceBytes at h
  have h2 : (s.dropWhile asciiSpaceByte).reverse.dropWhile asciiSpaceByte = [] := by
    have := congrArg List.reverse h
    simpa using this
  have h3 : ∀ x ∈ (s.dropWhile asciiSpaceByte).reverse, asciiSpaceByte x :=
    List.dropWhile_eq_nil_iff.mp h2
  rcases (List.takeWhile_append_dropWhile (p := asciiSpaceByte) (l := s)) ▸ hb |>
    List.mem_append.mp with htk | hdr
  · exact List.mem_takeWhile_imp htk
  · exact h3 b (List.mem_reverse.mpr hdr)

theorem urlParse_all_space {base : List Nat} (hsp : ∀ b ∈ base, b = 32) :
    ∀ u, urlParse base = .ok u → u.scheme = [] := by
  intro u h
  have hnm : ∀ x : Nat, x ≠ 32 → x ∉ base := fun x hx hm => hx (hsp x hm)
  have hctl : containsCTL base = false := by
    rw [Bool.eq_false_iff]
    intro hc
    obtain ⟨b, hb, hcond⟩ := List.any_eq_true.mp hc
    have := hsp b hb
    revert hcond
    simp [this]
  have hcut : cutByte 35 base = (base, []) := cutByte_not_mem (hnm 35 (by omega))
  have hgs : getScheme base = .ok ([], base) := by
    cases base with
    | nil => rfl
    | cons b r =>
      have hb := hsp b (List.mem_cons_self b r)
      subst hb
      rfl
  have hcut63 : cutByte 63 base = (base, []) := cutByte_not_mem (hnm 63 (by omega))
  unfold urlParse at h
  rw [hctl] at h
  simp only [Bool.false_eq_true, if_false, hcut, hgs] at h
  simp only [toLowerBytes, List.map_nil, hcut63] at h
  rw [if_neg (by simp)] at h
  split at h
  · cases h
  · split at h
    · split at h
      · cases h
        rfl
      · cases h
    · split at h
      · cases h
        rfl
      · cases h

/-- C6 counterexample: the base `foo/bar` parses as a (relative) URI, is not
absolute, and yet `NewClient` accepts it — construction does not fail for
every non-absolute base, contrary to the claim. -/
theorem NewClient_relative_base_accepted :
    urlParse (bytes "foo/bar") = .ok ⟨[], [], bytes "foo/bar", []⟩ ∧
    isAbs ⟨[], [], bytes "foo/bar", []⟩ = false ∧
    NewClient (bytes "foo/bar") = .ok ⟨[], [], bytes "foo/bar", []⟩ :=
  ⟨rfl, rfl, rfl⟩

/-- C6 (amended): construction fails with a configuration error exactly when
the base is blank or does not parse as a URI; whenever the base parses,
construction succeeds — in particular every base parsing as an absolute URI
is accepted (a blank base never parses as absolute), but parseable
non-absolute bases are accepted as well. -/
theorem NewClient_spec :
    ∀ base : List Nat,
      (trimSpaceBytes base = [] → NewClient base = .error "base URL is required") ∧
      (∀ msg, urlParse base = .error msg → trimSpaceBytes base ≠ [] →
        NewClient base = .error ("parse base URL: " ++ msg)) ∧
      (∀ u, urlParse base = .ok u → trimSpaceBytes base ≠ [] →
        NewClient base = .ok u) ∧
      (∀ u, urlParse base = .ok u → isAbs u = true → NewClient base = .ok u) := by
  intro base
  refine ⟨?_, ?_, ?_, ?_⟩
  · intro h
    unfold NewClient
    rw [if_pos h]
  · intro msg hp h
    unfold NewClient
    rw [if_neg h, hp]
  · intro u hp h
    unfold NewClient
    rw [if_neg h, hp]
  · intro u hp habs
    have hne : trimSpaceBytes base ≠ [] := by
      intro hnil
      have hsp : ∀ b ∈ base, asciiSpaceByte b := trimSpaceBytes_eq_nil hnil
      have h32 : ∀ b ∈ base, b = 32 := by
        intro b hb
        have hs := hsp b hb
        by_cases hb32 : b = 32
        · exact hb32
        · exfalso
          have hlt : b < 32 := by
            revert hs
            unfold asciiSpaceByte
            simp [hb32]
            omega
          have : containsCTL base = true := List.any_eq_true.mpr ⟨b, hb, by simp; omega⟩
          unfold urlParse at hp
          rw [this] at hp
          cases hp
      have := urlParse_all_space h32 u hp
      rw [isAbs, this] at habs
      simp at habs
    unfold NewClient
    rw [if_neg hne, hp]

/-- C6 witness: the amended theorem applied to the relative base `foo/bar`
and the absolute base `https://h`. -/
theorem NewClient_spec_witness :
    NewClient (bytes "foo/bar") = .ok ⟨[], [], bytes "foo/bar", []⟩ ∧
    NewClient (bytes "https://h") = .ok ⟨bytes "https", bytes "h", [], []⟩ :=
  ⟨(NewClient_spec (bytes "foo/bar")).2.2.1 ⟨[], [], bytes "foo/bar", []⟩ rfl (by decide),
   (NewClient_spec (bytes "https://h")).2.2.2 ⟨bytes "https", bytes "h", [], []⟩ rfl rfl⟩

theorem lexLe_total : ∀ a b : List Nat, lexLe a b = true ∨ lexLe b a = true := by
  intro a
  induction a with
  | nil => intro b; left; rfl
  | cons x xs ih =>
    intro b
    cases b with
    | nil => right; rfl
    | cons y ys =>
      by_cases hxy : x < y
      · left
        simp [lexLe, hxy]
      · by_cases hyx : y < x
        · right
          simp [lexLe, hyx]
        · have hxe : x = y := by omega
          subst hxe
          rcases ih ys with h | h
          · left
            simp [lexLe, h]
          · right
            simp [lexLe, h]

theorem lexLe_trans : ∀ a b c : List Nat,
    lexLe a b = true → lexLe b c = true → lexLe a c = true := by
  intro a
  induction a with
  | nil => intro b c _ _; rfl
  | cons x xs ih =>
    intro b c hab hbc
    cases b with
    | nil => simp [lexLe] at hab
    | cons y ys =>
      cases c with
      | nil => simp [lexLe] at hbc
      | cons z zs =>
        simp only [lexLe] at hab hbc ⊢
        by_cases hxy : x < y
        · by_cases hyz : y < z
          · simp [show x < z by omega]
          · simp only [if_neg hyz] at hbc
            by_cases hye : y = z
            · subst hye
              simp [hxy]
            · simp [hye] at hbc
        · simp only [if_neg hxy] at hab
          by_cases hxe : x = y
          · subst hxe
            simp only [if_pos rfl] at hab
            by_cases hyz : x < z
            · simp [hyz]
            · simp only [if_neg hyz] at hbc ⊢
              by_cases hze : x = z
              · simp only [if_pos hze] at hbc ⊢
                exact ih ys zs hab hbc
              · simp [hze] at hbc
          · simp [hxe] at hab

theorem hexVal_upperHexDigit : ∀ n, n < 16 → hexVal (upperHexDigit n) = some n := by
  decide

theorem shouldEscapeQuery_false {b : Nat} (h : shouldEscapeQuery b = false) :
    (48 ≤ b ∧ b ≤ 57) ∨ (65 ≤ b ∧ b ≤ 90) ∨ (97 ≤ b ∧ b ≤ 122) ∨
    b = 45 ∨ b = 46 ∨ b = 95 ∨ b = 126 := by
  simp [shouldEscapeQuery, isAlphaNumByte] at h
  omega

theorem mem_escByte_ne {b c : Nat} (hb : b < 256) (hc : c ∈ escByte b) :
    c ≠ 38 ∧ c ≠ 61 ∧ c ≠ 59 ∧ c ≠ 35 := by
  have hhex : ∀ n, n < 16 → upperHexDigit n ≠ 38 ∧ upperHexDigit n ≠ 61 ∧
      upperHexDigit n ≠ 59 ∧ upperHexDigit n ≠ 35 := by decide
  unfold escByte at hc
  split at hc
  · rw [List.mem_singleton] at hc
    omega
  · split at hc
    · simp only [List.mem_cons, List.mem_singleton, List.not_mem_nil, or_false] at hc
      rcases hc with rfl | rfl | rfl
      · omega
      · exact hhex _ (Nat.div_lt_of_lt_mul (by omega))
      · exact hhex _ (Nat.mod_lt _ (by omega))
    · rw [List.mem_singleton] at hc
      subst hc
      have hf : shouldEscapeQuery c = false := by simp_all
      rcases shouldEscapeQuery_false hf with h | h | h | h | h | h | h <;> omega

theorem queryEscape_nil : queryEscape [] = [] := rfl

theorem queryEscape_cons (b : Nat) (s : List Nat) :
    queryEscape (b :: s) = escByte b ++ queryEscape s := by
  simp [queryEscape]

theorem mem_queryEscape_ne {s : List Nat} (hs : isBytes s) :
    ∀ c ∈ queryEscape s, c ≠ 38 ∧ c ≠ 61 ∧ c ≠ 59 ∧ c ≠ 35 := by
  intro c hc
  unfold queryEscape at hc
  obtain ⟨l, hl, hcl⟩ := List.mem_flatten.mp hc
  obtain ⟨b, hb, rfl⟩ := List.mem_map.mp hl
  exact mem_escByte_ne (hs b hb) hcl

theorem queryUnescape_queryEscape {s : List Nat} (hs : isBytes s) :
    queryUnescape (queryEscape s) = some s := by
  induction s with
  | nil => rfl
  | cons b rest ih =>
    have hb : b < 256 := hs b (List.mem_cons_self b rest)
    have hrest : isBytes rest := fun x hx => hs x (List.mem_cons_of_mem b hx)
    rw [queryEscape_cons]
    unfold escByte
    by_cases h32 : b = 32
    · rw [if_pos h32]
      show queryUnescape (43 :: queryEscape rest) = _
      unfold queryUnescape
      rw [if_neg (by omega), if_pos rfl, ih hrest]
      simp [h32]
    · rw [if_neg h32]
      by_cases hesc : shouldEscapeQuery b = true
      · rw [if_pos hesc]
        show queryUnescape (37 :: upperHexDigit (b / 16) :: upperHexDigit (b % 16) ::
          queryEscape rest) = _
        unfold queryUnescape
        rw [if_pos rfl]
        have hdiv : b / 16 < 16 := Nat.div_lt_of_lt_mul (by omega)
        have hmod : b % 16 < 16 := Nat.mod_lt _ (by omega)
        simp only [hexVal_upperHexDigit _ hdiv, hexVal_upperHexDigit _ hmod, ih hrest]
        rw [Nat.div_add_mod]
        rfl
      · rw [if_neg hesc]
        have hb37 : b ≠ 37 := fun he => hesc (by subst he; rfl)
        have hb43 : b ≠ 43 := fun he => hesc (by subst he; rfl)
        show queryUnescape (b :: queryEscape rest) = _
        unfold queryUnescape
        rw [if_neg hb37, if_neg hb43, ih hrest]
        rfl

theorem splitOnByte_ne_nil (sep : Nat) (l : List Nat) : splitOnByte sep l ≠ [] := by
  cases l with
  | nil => simp [splitOnByte]
  | cons c rest =>
    unfold splitOnByte
    split
    · simp
    · split <;> simp

theorem splitOnByte_no_sep {sep : Nat} {s : List Nat} (h : sep ∉ s) :
    splitOnByte sep s = [s] := by
  induction s with
  | nil => rfl
  | cons c rest ih =>
    have hc : c ≠ sep := fun he => h (he ▸ List.mem_cons_self c rest)
    have hr : sep ∉ rest := fun hm => h (List.mem_cons_of_mem c hm)
    unfold splitOnByte
    rw [ih hr]
    simp [hc]

theorem splitOnByte_append {sep : Nat} {s t : List Nat} (h : sep ∉ s) :
    splitOnByte sep (s ++ sep :: t) = s :: splitOnByte sep t := by
  induction s with
  | nil =>
    show splitOnByte sep (sep :: t) = [] :: splitOnByte sep t
    conv_lhs => unfold splitOnByte
    cases hsp : splitOnByte sep t with
    | nil => exact absurd hsp (splitOnByte_ne_nil sep t)
    | cons a l => simp
  | cons c rest ih =>
    have hc : c ≠ sep := fun he => h (he ▸ List.mem_cons_self c rest)
    have hr : sep ∉ rest := fun hm => h (List.mem_cons_of_mem c hm)
    show splitOnByte sep (c :: (rest ++ sep :: t)) = (c :: rest) :: splitOnByte sep t
    conv_lhs => unfold splitOnByte
    rw [ih hr]
    simp [hc]

theorem byteJoin_split {sep : Nat} : ∀ segs : List (List Nat), segs ≠ [] →
    (∀ seg ∈ segs, sep ∉ seg) →
    splitOnByte sep (byteJoin sep segs) = segs := by
  intro segs
  induction segs with
  | nil => intro h; exact absurd rfl h
  | cons s rest ih =>
    intro _ hmem
    cases rest with
    | nil =>
      show splitOnByte sep (byteJoin sep [s]) = [s]
      exact splitOnByte_no_sep (hmem s (List.mem_cons_self s []))
    | cons s2 rest2 =>
      show splitOnByte sep (s ++ sep :: byteJoin sep (s2 :: rest2)) = s :: s2 :: rest2
      rw [splitOnByte_append (hmem s (List.mem_cons_self _ _))]
      rw [ih (by simp) fun seg hseg => hmem seg (List.mem_cons_of_mem s hseg)]

theorem cutByte_append {sep : Nat} {s t : List Nat} (h : sep ∉ s) :
    cutByte sep (s ++ sep :: t) = (s, t) := by
  induction s with
  | nil =>
    show cutByte sep (sep :: t) = ([], t)
    simp [cutByte]
  | cons c rest ih =>
    have hc : c ≠ sep := fun he => h (he ▸ List.mem_cons_self c rest)
    have hr : sep ∉ rest := fun hm => h (List.mem_cons_of_mem c hm)
    show cutByte sep (c :: (rest ++ sep :: t)) = (c :: rest, t)
    simp [cutByte, hc, ih hr]

theorem encodePair_ne_nil (k v : List Nat) : encodePair k v ≠ [] := by
  unfold encodePair
  cases h : queryEscape k with
  | nil => simp
  | cons a l => simp

theorem contains_eq_false_of_not_mem {s : List Nat} {b : Nat} (h : b ∉ s) :
    s.contains b = false := by
  rw [Bool.eq_false_iff]
  intro hc
  obtain ⟨x, hx, he⟩ := List.contains_iff_exists_mem_beq.mp hc
  have hbx : b = x := by simpa using he
  subst hbx
  exact h hx

theorem mem_encodePair {k v : List Nat} (hk : isBytes k) (hv : isBytes v) :
    ∀ c ∈ encodePair k v, c ≠ 38 ∧ c ≠ 59 := by
  intro c hc
  unfold encodePair at hc
  rcases List.mem_append.mp hc with h1 | h2
  · have := mem_queryEscape_ne hk c h1
    exact ⟨this.1, this.2.2.1⟩
  · rcases List.mem_cons.mp h2 with rfl | h3
    · omega
    · have := mem_queryEscape_ne hv c h3
      exact ⟨this.1, this.2.2.1⟩

theorem parseQuerySegs_encode :
    ∀ (pairs : List (List Nat × List Nat)) (m : Values),
      (∀ p ∈ pairs, isBytes p.1 ∧ isBytes p.2) →
      parseQuerySegs (pairs.map fun kv => encodePair kv.1 kv.2) m =
        some (pairs.foldl (fun acc kv => addValue acc kv.1 kv.2) m) := by
  intro pairs
  induction pairs with
  | nil => intro m _; rfl
  | cons p rest ih =>
    intro m hwf
    obtain ⟨hk, hv⟩ := hwf p (List.mem_cons_self p rest)
    have hrest : ∀ q ∈ rest, isBytes q.1 ∧ isBytes q.2 :=
      fun q hq => hwf q (List.mem_cons_of_mem p hq)
    show parseQuerySegs (encodePair p.1 p.2 :: rest.map fun kv => encodePair kv.1 kv.2) m = _
    unfold parseQuerySegs
    have hns : (encodePair p.1 p.2).contains 59 = false :=
      contains_eq_false_of_not_mem fun hm => (mem_encodePair hk hv 59 hm).2 rfl
    rw [hns]
    simp only [Bool.false_eq_true, if_false]
    rw [if_neg (encodePair_ne_nil p.1 p.2)]
    have hcut : cutByte 61 (encodePair p.1 p.2) = (queryEscape p.1, queryEscape p.2) :=
      cutByte_append fun hm => (mem_queryEscape_ne hk 61 hm).2.1 rfl
    rw [hcut]
    simp only [queryUnescape_queryEscape hk, queryUnescape_queryEscape hv]
    rw [ih (addValue m p.1 p.2) hrest]
    rfl

theorem addValue_not_mem : ∀ {m : Values} {k : List Nat} (v : List Nat),
    k ∉ m.map Prod.fst → addValue m k v = m ++ [(k, [v])] := by
  intro m
  induction m with
  | nil => intro k v _; rfl
  | cons kv rest ih =>
    intro k v h
    have hk : kv.1 ≠ k := by
      intro he
      exact h (he ▸ List.mem_map_of_mem Prod.fst (List.mem_cons_self kv rest))
    have hr : k ∉ rest.map Prod.fst := fun hm => h (by simp [List.mem_map] at hm ⊢; tauto)
    show addValue (kv :: rest) k v = kv :: rest ++ [(k, [v])]
    cases kv with
    | mk k' vs =>
      unfold addValue
      rw [if_neg hk, ih v hr]
      rfl

theorem addValue_last : ∀ (done : Values) (k : List Nat) (p : List (List Nat)) (v : List Nat),
    k ∉ done.map Prod.fst →
    addValue (done ++ [(k, p)]) k v = done ++ [(k, p ++ [v])] := by
  intro done
  induction done with
  | nil =>
    intro k p v _
    show addValue [(k, p)] k v = [(k, p ++ [v])]
    unfold addValue
    rw [if_pos rfl]
  | cons kv rest ih =>
    intro k p v h
    have hk : kv.1 ≠ k := by
      intro he
      exact h (he ▸ List.mem_map_of_mem Prod.fst (List.mem_cons_self kv rest))
    have hr : k ∉ rest.map Prod.fst := fun hm => h (by simp [List.mem_map] at hm ⊢; tauto)
    show addValue (kv :: (rest ++ [(k, p)])) k v = kv :: (rest ++ [(k, p ++ [v])])
    cases kv with
    | mk k' vs =>
      unfold addValue
      rw [if_neg hk, ih k p v hr]

theorem foldl_addValue_same_key :
    ∀ (vs : List (List Nat)) (done : Values) (k : List Nat) (p : List (List Nat)),
      k ∉ done.map Prod.fst →
      ((vs.map fun w => (k, w)).foldl (fun acc kv => addValue acc kv.1 kv.2)
        (done ++ [(k, p)])) = done ++ [(k, p ++ vs)] := by
  intro vs
  induction vs with
  | nil => intro done k p _; simp
  | cons v rest ih =>
    intro done k p h
    show (((rest.map fun w => (k, w)).foldl (fun acc kv => addValue acc kv.1 kv.2)
      (addValue (done ++ [(k, p)]) k v))) = _
    rw [addValue_last done k p v h, ih done k (p ++ [v]) h]
    simp

theorem foldl_addValue_pairs :
    ∀ (m : Values) (done : Values),
      (∀ k ∈ m.map Prod.fst, k ∉ done.map Prod.fst) →
      (m.map Prod.fst).Nodup →
      (∀ kv ∈ m, kv.2 ≠ []) →
      (valuesPairs m).foldl (fun acc kv => addValue acc kv.1 kv.2) done = done ++ m := by
  intro m
  induction m with
  | nil => intro done _ _ _; simp [valuesPairs]
  | cons kv rest ih =>
    intro done hdisj hnodup hval
    obtain ⟨k, vs⟩ := kv
    have hkdone : k ∉ done.map Prod.fst := hdisj k (by simp)
    have hvne : vs ≠ [] := hval (k, vs) (List.mem_cons_self _ _)
    have hpairs : valuesPairs ((k, vs) :: rest) =
        (vs.map fun w => (k, w)) ++ valuesPairs rest := by
      simp [valuesPairs]
    rw [hpairs, List.foldl_append]
    cases vs with
    | nil => exact absurd rfl hvne
    | cons v vs' =>
      have hstep : ((v :: vs').map fun w => (k, w)).foldl
          (fun acc kv => addValue acc kv.1 kv.2) done = done ++ [(k, v :: vs')] := by
        show ((vs'.map fun w => (k, w)).foldl (fun acc kv => addValue acc kv.1 kv.2)
          (addValue done k v)) = _
        rw [addValue_not_mem v hkdone, foldl_addValue_same_key vs' done k [v] hkdone]
        rfl
      rw [hstep]
      have hknr : k ∉ rest.map Prod.fst := by
        have := hnodup
        simp only [List.map_cons, List.nodup_cons] at this
        exact this.1
      have hdisj' : ∀ k' ∈ rest.map Prod.fst, k' ∉ (done ++ [(k, v :: vs')]).map Prod.fst := by
        intro k' hk'
        rw [List.map_append, List.mem_append]
        rintro (hd | hs)
        · exact hdisj k' (by simp [hk']) hd
        · simp at hs
          subst hs
          exact hknr hk'
      have hnodup' : (rest.map Prod.fst).Nodup := by
        simp only [List.map_cons, List.nodup_cons] at hnodup
        exact hnodup.2
      have hval' : ∀ kv ∈ rest, kv.2 ≠ [] := fun kv hkv => hval kv (List.mem_cons_of_mem _ hkv)
      rw [ih (done ++ [(k, v :: vs')]) hdisj' hnodup' hval']
      simp

theorem sortValues_perm (v : Values) : (sortValues v).Perm v :=
  List.perm_insertionSort _ v

theorem sortValues_sorted_keys (v : Values) :
    List.Sorted (fun a b => lexLe a b = true) ((sortValues v).map Prod.fst) := by
  haveI : IsTotal (List Nat × List (List Nat)) (fun a b => lexLe a.1 b.1 = true) :=
    ⟨fun a b => lexLe_total a.1 b.1⟩
  haveI : IsTrans (List Nat × List (List Nat)) (fun a b => lexLe a.1 b.1 = true) :=
    ⟨fun a b c => lexLe_trans a.1 b.1 c.1⟩
  have hs := List.sorted_insertionSort
    (fun a b : List Nat × List (List Nat) => lexLe a.1 b.1 = true) v
  exact List.Pairwise.map Prod.fst (fun a b h => h) hs

theorem mem_valuesPairs {m : Values} {p : List Nat × List Nat} (hp : p ∈ valuesPairs m) :
    ∃ kv ∈ m, p.1 = kv.1 ∧ p.2 ∈ kv.2 := by
  unfold valuesPairs at hp
  obtain ⟨kv, hkv, hp2⟩ := List.mem_flatMap.mp hp
  obtain ⟨w, hw, rfl⟩ := List.mem_map.mp hp2
  exact ⟨kv, hkv, rfl, hw⟩

theorem valuesPairs_ne_nil {m : Values} (hm : m ≠ []) (hv : ∀ kv ∈ m, kv.2 ≠ []) :
    valuesPairs m ≠ [] := by
  cases m with
  | nil => exact absurd rfl hm
  | cons kv rest =>
    unfold valuesPairs
    simp only [List.flatMap_cons]
    intro h
    rcases List.append_eq_nil.mp h with ⟨h1, _⟩
    exact hv kv (List.mem_cons_self _ _) (List.map_eq_nil_iff.mp h1)

theorem byteJoin_ne_nil (sep : Nat) :
    ∀ segs : List (List Nat), segs ≠ [] → (∀ s ∈ segs, s ≠ []) →
      byteJoin sep segs ≠ [] := by
  intro segs h1 h2
  cases segs with
  | nil => exact absurd rfl h1
  | cons s rest =>
    cases rest with
    | nil => exact h2 s (List.mem_cons_self _ _)
    | cons s2 rest2 =>
      show s ++ sep :: byteJoin sep (s2 :: rest2) ≠ []
      simp

/-- C3: composing a well-formed non-empty parameter set yields a target whose
raw query is the canonical percent-encoded string with parameters in sorted
key order, and `ParseQuery` decodes it back to exactly the original
key-to-values mapping (the sorted association list, a permutation of the
original); an empty parameter set yields a target with no query string at all
(no `?` suffix in the rendered URL). -/
theorem buildURL_query_spec :
    ∀ (base : URLRec) (path : List Nat) (params : Values), ValuesWF params →
      (params = [] →
        (buildURL base path params).rawQuery = [] ∧
        urlString (buildURL base path params) = urlStringBase (buildURL base path params)) ∧
      (params ≠ [] →
        (buildURL base path params).rawQuery = encodeValues params ∧
        encodeValues params ≠ [] ∧
        urlString (buildURL base path params) =
          urlStringBase (buildURL base path params) ++ 63 :: encodeValues params ∧
        List.Sorted (fun a b : List Nat => lexLe a b = true)
          ((sortValues params).map Prod.fst) ∧
        parseQuery (encodeValues params) = some (sortValues params) ∧
        (sortValues params).Perm params) := by
  intro base path params hwf
  constructor
  · rintro rfl
    refine ⟨rfl, ?_⟩
    unfold urlString
    rw [show (buildURL base path []).rawQuery = [] from rfl]
    simp
  · intro hne
    have hraw : (buildURL base path params).rawQuery = encodeValues params := by
      show (if params ≠ [] then encodeValues params else []) = _
      rw [if_pos hne]
    have hperm : (sortValues params).Perm params := sortValues_perm params
    have hsubset : ∀ kv ∈ sortValues params, kv ∈ params := fun kv h => hperm.subset h
    have hvalS : ∀ kv ∈ sortValues params, kv.2 ≠ [] :=
      fun kv h => (hwf.2 kv (hsubset kv h)).1
    have hsort_ne : sortValues params ≠ [] := by
      intro h0
      have hlen := hperm.length_eq
      rw [h0] at hlen
      exact hne (List.length_eq_zero.mp hlen.symm)
    have hpairsB : ∀ p ∈ valuesPairs (sortValues params), isBytes p.1 ∧ isBytes p.2 := by
      intro p hp
      obtain ⟨kv, hkv, h1, h2⟩ := mem_valuesPairs hp
      have hw := hwf.2 kv (hsubset kv hkv)
      exact ⟨h1 ▸ hw.2.1, hw.2.2 p.2 h2⟩
    have hpairs_ne : valuesPairs (sortValues params) ≠ [] := valuesPairs_ne_nil hsort_ne hvalS
    have hsegs_ne :
        (valuesPairs (sortValues params)).map (fun kv => encodePair kv.1 kv.2) ≠ [] := by
      simp [hpairs_ne]
    have hsegs_nonnil :
        ∀ seg ∈ (valuesPairs (sortValues params)).map (fun kv => encodePair kv.1 kv.2),
          seg ≠ [] := by
      intro seg hseg
      obtain ⟨p, _, rfl⟩ := List.mem_map.mp hseg
      exact encodePair_ne_nil _ _
    have hq_ne : encodeValues params ≠ [] :=
      byteJoin_ne_nil 38 _ hsegs_ne hsegs_nonnil
    have hseg38 :
        ∀ seg ∈ (valuesPairs (sortValues params)).map (fun kv => encodePair kv.1 kv.2),
          (38 : Nat) ∉ seg := by
      intro seg hseg hm
      obtain ⟨p, hp, rfl⟩ := List.mem_map.mp hseg
      exact (mem_encodePair (hpairsB p hp).1 (hpairsB p hp).2 38 hm).1 rfl
    have hnodupS : ((sortValues params).map Prod.fst).Nodup :=
      ((hperm.map Prod.fst).nodup_iff).mpr hwf.1
    have hparse : parseQuery (encodeValues params) = some (sortValues params) := by
      unfold parseQuery
      rw [if_neg hq_ne]
      show parseQuerySegs (splitOnByte 38 (byteJoin 38
        ((valuesPairs (sortValues params)).map fun kv => encodePair kv.1 kv.2))) [] = _
      rw [byteJoin_split _ hsegs_ne hseg38,
        parseQuerySegs_encode (valuesPairs (sortValues params)) [] hpairsB,
        foldl_addValue_pairs (sortValues params) [] (by simp) hnodupS hvalS]
      simp
    have hurl : urlString (buildURL base path params) =
        urlStringBase (buildURL base path params) ++ 63 :: encodeValues params := by
      unfold urlString
      rw [hraw, if_pos hq_ne]
    exact ⟨hraw, hq_ne, hurl, sortValues_sorted_keys params, hparse, hperm⟩

/-- C3 witness: the parameter set `{results ↦ [5], query ↦ [berlin hbf]}` is
well-formed; its encoding is sorted, non-empty, and decodes back to the
sorted association list, a permutation of the original. -/
theorem buildURL_query_spec_witness :
    (buildURL ⟨bytes "https", bytes "h", bytes "/api", []⟩ (bytes "locations")
        [(bytes "results", [bytes "5"]), (bytes "query", [bytes "berlin hbf"])]).rawQuery =
      encodeValues [(bytes "results", [bytes "5"]), (bytes "query", [bytes "berlin hbf"])] ∧
    encodeValues [(bytes "results", [bytes "5"]), (bytes "query", [bytes "berlin hbf"])] ≠ [] ∧
    urlString (buildURL ⟨bytes "https", bytes "h", bytes "/api", []⟩ (bytes "locations")
        [(bytes "results", [bytes "5"]), (bytes "query", [bytes "berlin hbf"])]) =
      urlStringBase (buildURL ⟨bytes "https", bytes "h", bytes "/api", []⟩ (bytes "locations")
        [(bytes "results", [bytes "5"]), (bytes "query", [bytes "berlin hbf"])]) ++
        63 :: encodeValues [(bytes "results", [bytes "5"]), (bytes "query", [bytes "berlin hbf"])] ∧
    List.Sorted (fun a b : List Nat => lexLe a b = true)
      ((sortValues [(bytes "results", [bytes "5"]), (bytes "query", [bytes "berlin hbf"])]).map
        Prod.fst) ∧
    parseQuery (encodeValues
        [(bytes "results", [bytes "5"]), (bytes "query", [bytes "berlin hbf"])]) =
      some (sortValues [(bytes "results", [bytes "5"]), (bytes "query", [bytes "berlin hbf"])]) ∧
    (sortValues [(bytes "results", [bytes "5"]), (bytes "query", [bytes "berlin hbf"])]).Perm
      [(bytes "results", [bytes "5"]), (bytes "query", [bytes "berlin hbf"])] :=
  (buildURL_query_spec ⟨bytes "https", bytes "h", bytes "/api", []⟩ (bytes "locations")
    [(bytes "results", [bytes "5"]), (bytes "query", [bytes "berlin hbf"])]
    (by decide)).2 (by decide)

end DBRest
